import Mathlib

/-!
# Verification of the neuralmonkey MIXER training core

A shallow embedding, in Lean 4, of the gradient-mixing trainer
(`mixer.py`), the transformer decoder's autoregressive decoding loop and
layer stack (`neuralmonkey/decoders/transformer.py`), and the training
driver's trainer construction (`train_translation.py`), together with
theorems settling the specification's claims about them.

Tensor values are modelled elementwise over `ℚ` (exact arithmetic);
per-step, per-variable gradients are tagged values mirroring the dynamic
type dispatch of the Python source; fallible Python code is modelled in
`Except PyErr`.
-/

/-- A Python runtime error, as far as the modelled code can raise one:
a generic `Exception(msg)`, a `NameError` for an undefined name, a
`ValueError` (e.g. TensorFlow converting `None` to a tensor), a
`TypeError` (e.g. calling a function with the wrong number of
arguments), or an `IndexError` for a bad list index. -/
inductive PyErr : Type where
  | exceptionErr (msg : String) : PyErr
  | nameError (missingName : String) : PyErr
  | valueError (msg : String) : PyErr
  | typeError (msg : String) : PyErr
  | indexError (idx : Nat) : PyErr
  deriving Repr, DecidableEq

/-- The message a Python error prints. A `NameError` over name `n` prints
`NameError: name n is not defined`: it mentions the missing *name*, never
the value whose type the broken format call tried to render. -/
def PyErr.message : PyErr → String
  | .exceptionErr msg => msg
  | .nameError n => ("NameError: name ") ++ n ++ (" is not defined")
  | .valueError msg => ("ValueError: ") ++ msg
  | .typeError msg => ("TypeError: ") ++ msg
  | .indexError i => ("IndexError: ") ++ toString i

/-- Does the first character list start with the second? -/
def charsStartWith : List Char → List Char → Bool
  | _, [] => true
  | [], _ :: _ => false
  | a :: as, b :: bs => a == b && charsStartWith as bs

/-- Does the first character list contain the second as a contiguous run? -/
def charsContain : List Char → List Char → Bool
  | ms, sub =>
    if charsStartWith ms sub then true
    else
      match ms with
      | [] => false
      | _ :: rest => charsContain rest sub

/-- Model of `containsSub msg sub` : does `msg` contain `sub` as a substring? -/
def containsSub (msg sub : String) : Bool :=
  charsContain msg.toList sub.toList

/-- One gradient value, as `tf.gradients` hands it to the mixing loop in
`Mixer.__init__`: a dense tensor (`tf.Tensor`), a sparse indexed-slices
value (`tf.IndexedSlices`), Python `None` (no contribution), or a value
of any other type (tagged with that type's name).  Tensor contents are
modelled elementwise by a single rational. -/
inductive GradVal : Type where
  | tensor (v : ℚ) : GradVal
  | indexedSlices (v : ℚ) : GradVal
  | noneG : GradVal
  | other (tyName : String) : GradVal
  deriving Repr, DecidableEq

namespace Mixer

/-- Model of `tf.scalar_mul`'s view of a gradient operand: dense and sparse values
convert to their (elementwise) number; `None` fails with the ValueError
TensorFlow raises when converting `None` to a tensor; any other object
fails with a conversion error. -/
def toScalar : GradVal → Except PyErr ℚ
  | .tensor v => .ok v
  | .indexedSlices v => .ok v
  | .noneG => .error (.valueError ("None values not supported"))
  | .other _ => .error (.typeError ("could not convert value to tensor"))

/-- The inner loop of the gradient merge in `Mixer.__init__`
(`for j, (rg, xent_g) in enumerate(zip(rgs, xent_gs))`), processing the
remaining `(reinforce_gradient, cross_entropy_gradient)` pairs of step
`i`, with `j` the index of the next pair's variable and `mixed` the
accumulator list `mixed_gradients`:
* `xent_g is None and i == 0` — append `None` ("no contribution") once;
* `xent_g` a dense tensor or indexed slices — form
  `g = mix_w * xent_g + (1 - mix_w) * rg`; at step 0 append it, at a
  later step merge it into slot `j` (set it if the slot holds `None`,
  else add);
* `xent_g is None` at a later step — skip the pair;
* any other value — the source line
  `raise Exception("Unnkown type of gradients: {}".format(type(xg)))`
  references the undefined name `xg`, so what is actually raised is
  `NameError: name xg is not defined`. -/
def mixInner (i : ℕ) (mixW : ℚ) :
    List (GradVal × GradVal) → ℕ → List (Option ℚ) →
    Except PyErr (List (Option ℚ))
  | [], _, mixed => .ok mixed
  | (rg, xg) :: rest, j, mixed =>
    if xg = GradVal.noneG ∧ i = 0 then
      mixInner i mixW rest (j + 1) (mixed ++ [none])
    else
      match xg with
      | .tensor xv | .indexedSlices xv => do
        let rv ← toScalar rg
        let g := mixW * xv + (1 - mixW) * rv
        if i = 0 then
          mixInner i mixW rest (j + 1) (mixed ++ [some g])
        else
          match mixed.get? j with
          | none => .error (.indexError j)
          | some none => mixInner i mixW rest (j + 1) (mixed.set j (some g))
          | some (some m) =>
              mixInner i mixW rest (j + 1) (mixed.set j (some (m + g)))
      | .noneG => mixInner i mixW rest (j + 1) mixed
      | .other _ => .error (.nameError ("xg"))

/-- The outer loop of the gradient merge
(`for i, (rgs, xent_gs, mix_w) in enumerate(zip(...))`): fold the steps,
threading `mixed_gradients`. -/
def mixLoop : ℕ → List (List GradVal × List GradVal × ℚ) →
    List (Option ℚ) → Except PyErr (List (Option ℚ))
  | _, [], mixed => .ok mixed
  | i, (rgs, xgs, w) :: rest, mixed => do
    let mixed' ← mixInner i w (rgs.zip xgs) 0 mixed
    mixLoop (i + 1) rest mixed'

/-- Model of `zip(reinforce_gradients, xent_gradients, self.mixer_weights)`. -/
def zip3 {α β γ : Type} : List α → List β → List γ → List (α × β × γ)
  | a :: as, b :: bs, c :: cs => (a, b, c) :: zip3 as bs cs
  | _, _, _ => []

/-- The whole `mixed_gradients` construction of `Mixer.__init__`:
`reinforceGrads` and `xentGrads` are indexed by step (outer) and
trainable variable (inner), `mixWeights` holds one weight per step. -/
def mixedGradients (reinforceGrads xentGrads : List (List GradVal))
    (mixWeights : List ℚ) : Except PyErr (List (Option ℚ)) :=
  mixLoop 0 (zip3 reinforceGrads xentGrads mixWeights) []

/-- Is a gradient value a numeric (dense or sparse) tensor? -/
def isNum : GradVal → Bool
  | .tensor _ => true
  | .indexedSlices _ => true
  | _ => false

/-- Is a gradient value of an unexpected type? -/
def isOther : GradVal → Bool
  | .other _ => true
  | _ => false

/-- The elementwise number a numeric gradient value carries. -/
def numVal : GradVal → ℚ
  | .tensor v => v
  | .indexedSlices v => v
  | _ => 0

/-- A `(reinforce, cross_entropy)` gradient pair as TensorFlow actually
produces one: both are gradients of objectives flowing through the very
same logits with respect to the same variable, so one is a numeric
tensor exactly when the other is, and neither is of an unexpected
type. -/
def alignedPair (p : GradVal × GradVal) : Prop :=
  isNum p.1 = isNum p.2 ∧ isOther p.1 = false ∧ isOther p.2 = false

/-- One step's gradient lists are well formed: `n` variables in each
stream, and the pairs aligned. -/
def alignedStep (n : ℕ) (rgs xgs : List GradVal) : Prop :=
  rgs.length = n ∧ xgs.length = n ∧ ∀ p ∈ rgs.zip xgs, alignedPair p

/-- Accumulation of one step's per-variable contributions (present
value or absent) into the accumulator list, with the very loop
discipline of `Mixer.__init__`: at step 0 a present value opens the
variable's slot and an absent one records "no contribution"; at a
later step a present value is added into slot `j` (opening it if it
still holds `none`) and an absent one skips the variable. -/
def accumVals (i : ℕ) : List (Option ℚ) → ℕ → List (Option ℚ) →
    List (Option ℚ)
  | [], _, acc => acc
  | ov :: rest, j, acc =>
    match ov with
    | some v =>
      if i = 0 then accumVals i rest (j + 1) (acc ++ [some v])
      else
        match acc.get? j with
        | none => acc
        | some none => accumVals i rest (j + 1) (acc.set j (some v))
        | some (some m) => accumVals i rest (j + 1) (acc.set j (some (m + v)))
    | none =>
      if i = 0 then accumVals i rest (j + 1) (acc ++ [none])
      else accumVals i rest (j + 1) acc

/-- Fold `accumVals` over the steps. -/
def accumValsLoop : ℕ → List (List (Option ℚ)) → List (Option ℚ) →
    List (Option ℚ)
  | _, [], acc => acc
  | i, ovs :: rest, acc => accumValsLoop (i + 1) rest (accumVals i ovs 0 acc)

/-- A gradient value's contribution: its number when it is a numeric
tensor, absent otherwise. -/
def toOptVal (g : GradVal) : Option ℚ :=
  if isNum g then some (numVal g) else none

/-- The gradient one stream *alone* accumulates across all steps
(elementwise sum per variable of its present per-step gradients,
`none` for a variable absent at every step).  `accumGradients
xentGrads` is the cross-entropy-only accumulated gradient,
`accumGradients reinforceGrads` the reinforce-only one. -/
def accumGradients (grads : List (List GradVal)) : List (Option ℚ) :=
  accumValsLoop 0 (grads.map (fun gs => gs.map toOptVal)) []

/-- The contribution one `(reinforce, cross_entropy)` pair makes at a
step with mixing weight `w`: `w * xent + (1 - w) * reinforce` when the
cross-entropy gradient is numeric, absent otherwise. -/
def mixVal (w : ℚ) (p : GradVal × GradVal) : Option ℚ :=
  if isNum p.2 then some (w * numVal p.2 + (1 - w) * numVal p.1) else none

end Mixer

/-! ## A tiny TensorFlow-style expression language with gradients

`Mixer.__init__` manipulates symbolic tensors and differentiates them
with `tf.gradients`, severing paths with `tf.stop_gradient`.  The
claims about those constructions are settled over this expression
language: scalar expressions over numbered trainable variables, with
`tf.gradients` as symbolic differentiation in which `stop_gradient`
blocks the derivative. -/

namespace TF

/-- A scalar TensorFlow expression over numbered trainable variables. -/
inductive Expr : Type where
  | varE (idx : ℕ) : Expr
  | constE (c : ℚ) : Expr
  | addE (a b : Expr) : Expr
  | subE (a b : Expr) : Expr
  | mulE (a b : Expr) : Expr
  | stop_gradient (a : Expr) : Expr
  deriving Repr, DecidableEq

/-- Evaluate an expression at an assignment of the variables.
`stop_gradient` is the identity in the forward pass. -/
def evalE (ρ : ℕ → ℚ) : Expr → ℚ
  | .varE i => ρ i
  | .constE c => c
  | .addE a b => evalE ρ a + evalE ρ b
  | .subE a b => evalE ρ a - evalE ρ b
  | .mulE a b => evalE ρ a * evalE ρ b
  | .stop_gradient a => evalE ρ a

/-- Model of `tf.gradients` as symbolic differentiation with respect to variable
`j`: `stop_gradient` severs the gradient path (its derivative is 0). -/
def gradE (j : ℕ) : Expr → Expr
  | .varE i => .constE (if i = j then 1 else 0)
  | .constE _ => .constE 0
  | .addE a b => .addE (gradE j a) (gradE j b)
  | .subE a b => .subE (gradE j a) (gradE j b)
  | .mulE a b => .addE (.mulE (gradE j a) b) (.mulE a (gradE j b))
  | .stop_gradient _ => .constE 0

/-- Model of `tf.train.GradientDescentOptimizer(lr).minimize(loss)`: one plain
gradient-descent update `v := v - lr * dloss/dv` applied to every
variable of `var_list` — and `minimize` called without a `var_list`,
as `Mixer.__init__` calls it, differentiates with respect to **all**
trainable variables of the graph. -/
def gradient_descent_minimize (lr : ℚ) (loss : Expr) (var_list : List ℕ)
    (ρ : ℕ → ℚ) : ℕ → ℚ :=
  fun j => if j ∈ var_list then ρ j - lr * evalE ρ (gradE j loss) else ρ j

/-- Sum of a list of expressions, as Python `sum` builds it. -/
def sumE (es : List Expr) : Expr :=
  es.foldl (fun a b => .addE a b) (.constE 0)

end TF

/-- A TensorFlow trainable variable, as far as the mixer's variable
filtering sees one: its scoped name.  Every variable created inside
`with tf.variable_scope('mixer')` has a name starting with `mixer`. -/
structure TFVar : Type where
  name : String
  deriving Repr, DecidableEq

namespace Mixer

/-- Model of `trainable_vars = [v for v in tf.trainable_variables() if not
v.name.startswith('mixer')]`: the variables the mixed and reinforce
gradients are computed for. -/
def trainable_vars (allVars : List TFVar) : List TFVar :=
  allVars.filter (fun v => !(v.name.startsWith ("mixer")))

/-- Model of `tf.reduce_max(l, 1)` on one batch row of logits. -/
def row_max : List ℚ → ℚ
  | [] => 0
  | x :: xs => xs.foldl max x

/-- Model of `tf.to_float(tf.equal(ml, l))` on one batch row: 1 at every
vocabulary entry equal to the row's maximum logit, 0 elsewhere. -/
def indicator_row (l : List ℚ) : List ℚ :=
  l.map (fun v => if v = row_max l then 1 else 0)

/-- Broadcast multiplication of a column vector against a matrix, as
`tf.expand_dims(c, 1) * m` performs it. -/
def broadcast_col_mul (col : List ℚ) (m : List (List ℚ)) : List (List ℚ) :=
  List.zipWith (fun c row => row.map (fun x => c * x)) col m

/-- Model of `tf.reduce_sum(m, 0)`: columnwise sum of a `batch × vocab` matrix
(`vocab` fixes the width for an empty batch). -/
def reduce_sum_axis0 (vocab : ℕ) (m : List (List ℚ)) : List ℚ :=
  m.foldr (fun row acc => List.zipWith (· + ·) row acc)
    (List.replicate vocab 0)

/-- One step's REINFORCE derivative term as `Mixer.__init__` builds it:
`tf.reduce_sum(tf.expand_dims(self.bleu - r, 1) * (tf.nn.softmax(l) - i), 0)`
with `r` the expected rewards, `l` the step's logits (one row per batch
element) and `i` the argmax indicator.  The softmax is abstracted as a
function parameter. -/
def derivatives_step (softmaxF : List ℚ → List ℚ) (vocab : ℕ)
    (bleu r : List ℚ) (logits : List (List ℚ)) : List ℚ :=
  reduce_sum_axis0 vocab
    (broadcast_col_mul (List.zipWith (fun b rr => b - rr) bleu r)
      (logits.map (fun lrow =>
        List.zipWith (fun s ind => s - ind) (softmaxF lrow)
          (indicator_row lrow))))

/-- The specification's formula for the same term, word for word:
`g_t = sum_over_batch[(actual_reward − expected_reward_t) *
(softmax(logits_t) − indicator_t)]`. -/
def g_spec (softmaxF : List ℚ → List ℚ) (vocab : ℕ)
    (bleu r : List ℚ) (logits : List (List ℚ)) : List ℚ :=
  (List.zipWith
      (fun c lrow =>
        List.zipWith (fun s ind => c * (s - ind)) (softmaxF lrow)
          (indicator_row lrow))
      (List.zipWith (fun b rr => b - rr) bleu r) logits).foldr
    (fun v acc => List.zipWith (· + ·) v acc) (List.replicate vocab 0)

/-- Model of `expected_rewards = [tf.squeeze(tf.matmul(h, linear_reg_W)) +
linear_reg_b for h in hidden_states]`, elementwise over one batch
element: the regressor's reward prediction per step, as an expression
over the graph's trainable variables.  `wIdx` and `bIdx` number the
regressor's own weight and bias variables. -/
def expected_rewards (hidden_states : List TF.Expr) (wIdx bIdx : ℕ) :
    List TF.Expr :=
  hidden_states.map (fun h => .addE (.mulE h (.varE wIdx)) (.varE bIdx))

/-- Model of `regression_loss = sum([(r - self.bleu) ** 2 for r in
expected_rewards]) * 0.5` for one batch element with actual BLEU
`bleu`. -/
def regression_loss (hidden_states : List TF.Expr) (wIdx bIdx : ℕ)
    (bleu : ℚ) : TF.Expr :=
  .mulE
    (TF.sumE ((expected_rewards hidden_states wIdx bIdx).map
      (fun r => .mulE (.subE r (.constE bleu)) (.subE r (.constE bleu)))))
    (.constE (1 / 2))

/-- Model of `regression_optimizer =
tf.train.GradientDescentOptimizer(1e-3).minimize(regression_loss)`:
the update the regressor's training op applies when run.  `minimize` is
called with no `var_list`, so `trainable` is the list of **all**
trainable variables of the graph, decoder parameters included. -/
def regression_optimizer_update (hidden_states : List TF.Expr)
    (wIdx bIdx : ℕ) (bleu : ℚ) (trainable : List ℕ) (ρ : ℕ → ℚ) :
    ℕ → ℚ :=
  TF.gradient_descent_minimize (1 / 1000)
    (regression_loss hidden_states wIdx bIdx bleu) trainable ρ

/-- A graph node `Mixer.run` can ask `sess.run` to evaluate. -/
inductive Fetch : Type where
  | mixer_optimizer : Fetch
  | regression_optimizer : Fetch
  | loss_with_decoded_ins : Fetch
  | loss_with_gt_ins : Fetch
  | summary_train : Fetch
  | decoded_seq (t : ℕ) : Fetch
  deriving Repr, DecidableEq

/-- The fetch list `Mixer.run` passes to `sess.run`: with
`verbose=True` the optimizer, both losses, the training summary and the
decoded sequence tensors; otherwise the optimizer alone.  The
regressor's training op is in neither list. -/
def runFetches (verbose : Bool) (numDecoded : ℕ) : List Fetch :=
  if verbose then
    [.mixer_optimizer, .loss_with_decoded_ins, .loss_with_gt_ins,
      .summary_train] ++ (List.range numDecoded).map .decoded_seq
  else [.mixer_optimizer]

/-- The per-step mixing-weight feed values after `Mixer.run` prepares
the feed dictionary: `for w in self.mixer_weights: fd[w] = 1` writes 1
into every weight's slot, whatever the caller put there. -/
def runFeedWeights (numSteps : ℕ) (fd : ℕ → Option ℚ) : ℕ → Option ℚ :=
  fun w => if w < numSteps then some 1 else fd w

/-- The mixing-weight feed values the claim describes: the
caller-provided per-step weights, defaulting to 1.0 for a step the
caller did not give one for. -/
def claimedFeedWeights (numSteps : ℕ) (fd : ℕ → Option ℚ) : ℕ → Option ℚ :=
  fun w => if w < numSteps then some ((fd w).getD 1) else fd w

end Mixer

/-! ## The transformer decoder's layer stack

`TransformerDecoder.layer` builds level `L` of the stack from level
`L-1` through three pre-norm residual sublayers.  The sublayer
primitives (`layer_norm`, scaled dot-product `attention`, `dropout`,
the two dense maps of the feed-forward block) live in modules outside
this repository slice, so they are abstracted as opaque functions over
an abstract tensor type `T` with masks of type `M`; the sublayer and
stack *composition* is translated from the source. -/

/-- Model of `TransformerLayer`: one level of the stack, an immutable snapshot
of its temporal states and its mask. -/
structure TransformerLayerS (T M : Type) : Type where
  states : T
  mask : M

/-- The primitives a decoder layer is composed of. -/
structure SublayerOps (T M : Type) : Type where
  layer_norm : T → T
  self_attention : T → M → T
  encoder_attention : T → T
  ff_hidden : T → T
  ff_output : T → T
  dropoutOp : T → T
  residualAdd : T → T → T

namespace TransformerDecoder

variable {T M : Type}

/-- Model of `TransformerDecoder.self_attention_sublayer`: layer-normalize the
previous layer's states, run causal self-attention over them, apply
dropout, add the residual. -/
def self_attention_sublayer (ops : SublayerOps T M)
    (prev_layer : TransformerLayerS T M) : T :=
  let normalized_states := ops.layer_norm prev_layer.states
  let self_context := ops.self_attention normalized_states prev_layer.mask
  let self_context := ops.dropoutOp self_context
  ops.residualAdd self_context prev_layer.states

/-- Model of `TransformerDecoder.encoder_attention_sublayer`: layer-normalize
the queries, attend over the encoder states, apply dropout, add the
residual. -/
def encoder_attention_sublayer (ops : SublayerOps T M) (queries : T) : T :=
  let normalized_queries := ops.layer_norm queries
  let encoder_context := ops.encoder_attention normalized_queries
  let encoder_context := ops.dropoutOp encoder_context
  ops.residualAdd encoder_context queries

/-- Model of `TransformerDecoder.feedforward_sublayer`: layer-normalize, hidden
dense + ReLU, dropout, output dense, dropout, residual add. -/
def feedforward_sublayer (ops : SublayerOps T M) (layer_input : T) : T :=
  let normalized_input := ops.layer_norm layer_input
  let ff_hidden := ops.dropoutOp (ops.ff_hidden normalized_input)
  let ff_output := ops.dropoutOp (ops.ff_output ff_hidden)
  ops.residualAdd ff_output layer_input

/-- The three sublayers of one level, composed in source order. -/
def sublayer_block (ops : SublayerOps T M)
    (prev_layer : TransformerLayerS T M) : T :=
  feedforward_sublayer ops
    (encoder_attention_sublayer ops (self_attention_sublayer ops prev_layer))

/-- Model of `TransformerDecoder.layer`, the recursive stack builder: level 0
is the raw (embedded) inputs; level `L ≥ 1` applies the three sublayers
to level `L-1`, and exactly on the configured `depth` one extra layer
normalization is applied to the output before returning. -/
def layer (ops : SublayerOps T M) (depth : ℕ) :
    ℕ → T → M → TransformerLayerS T M
  | 0, inputs, mask => ⟨inputs, mask⟩
  | level + 1, inputs, mask =>
    let prev_layer := layer ops depth level inputs mask
    let output_states := sublayer_block ops prev_layer
    let output_states :=
      if depth = level + 1 then ops.layer_norm output_states else output_states
    ⟨output_states, mask⟩

end TransformerDecoder

/-! ## The autoregressive decoding loop

The loop state and step function of `TransformerDecoder.get_body`.
Tensors are modelled as nested lists over `ℚ` (time-major histories,
one inner entry per batch element); the network that maps the decoded
prefix to this step's output hidden state (embeddings, layer stack,
slice `[:, -1, :]`) and the output projection (`decoding_w`,
`decoding_b`) are abstracted as functions. -/

/-- Model of `PAD_TOKEN_INDEX` of `neuralmonkey.vocabulary`.  The source
asserts `PAD_TOKEN_INDEX == 0` in `get_body`, and the spec fixes the
padding id at 0. -/
def PAD_TOKEN_INDEX : ℕ := 0

/-- Model of `DecoderFeedables`, with the fields `get_body` constructs:
the step counter, the per-sequence finished flags, the symbols fed
into the next step and the last step's logits. -/
structure DecoderFeedables : Type where
  step : ℕ
  finished : List Bool
  input_symbol : List ℕ
  prev_logits : List (List ℚ)

/-- Model of `TransformerHistories`: the growing time-major histories, one
slice appended per step. -/
structure TransformerHistories : Type where
  logits : List (List (List ℚ))
  decoder_outputs : List (List (List ℚ))
  mask : List (List Bool)
  outputs : List (List ℕ)
  decoded_symbols : List (List ℕ)
  input_mask : List (List ℚ)

/-- Model of `LoopState` (the `constants` component is always the empty list in
the source and is omitted). -/
structure LoopState : Type where
  histories : TransformerHistories
  feedables : DecoderFeedables

/-- The decoder network around the loop, abstracted: `outputStateOf`
maps the time-major decoded prefix and its input mask to the per-batch
output hidden state (embed, run the stack, take the last temporal
position); `decodingProj` is the output projection
`h ↦ h @ decoding_w + decoding_b` on one batch row; `endTokenIdx` is
`END_TOKEN_INDEX`. -/
structure DecoderNet : Type where
  outputStateOf : List (List ℕ) → List (List ℚ) → List (List ℚ)
  decodingProj : List ℚ → List ℚ
  endTokenIdx : ℕ

namespace TransformerDecoder

/-- Model of `tf.argmax` over one row of logits: the index of the first
maximal entry. -/
def argmaxAux : List ℚ → ℕ → ℕ → ℚ → ℕ
  | [], _, best, _ => best
  | x :: xs, cur, best, bestVal =>
    if bestVal < x then argmaxAux xs (cur + 1) cur x
    else argmaxAux xs (cur + 1) best bestVal

/-- Model of `tf.argmax` over one row of logits (0 for an empty row). -/
def argmaxIdx : List ℚ → ℕ
  | [] => 0
  | x :: xs => argmaxAux xs 1 0 x

/-- The decoded-symbol prefix after appending this step's input
symbols (`tf.concat([histories.decoded_symbols, ...], axis=0)`). -/
def stepDecodedSymbols (s : LoopState) : List (List ℕ) :=
  s.histories.decoded_symbols ++ [s.feedables.input_symbol]

/-- The input-mask history after appending
`tf.to_float(tf.logical_not(feedables.finished))`. -/
def stepInputMask (s : LoopState) : List (List ℚ) :=
  s.histories.input_mask ++
    [s.feedables.finished.map (fun f => if f then (0 : ℚ) else 1)]

/-- This step's logits: the abstracted network on the extended prefix,
then the output projection per batch row. -/
def stepLogits (net : DecoderNet) (s : LoopState) : List (List ℚ) :=
  (net.outputStateOf (stepDecodedSymbols s) (stepInputMask s)).map
    net.decodingProj

/-- The symbols the greedy branch of `get_body` emits this step:
`tf.to_int32(tf.argmax(logits, axis=1))` multiplied by the integer
non-finished mask, which forces `PAD_TOKEN_INDEX = 0` for every
already-finished sequence. -/
def nextSymbols (net : DecoderNet) (s : LoopState) : List ℕ :=
  List.zipWith (fun n m => n * m)
    ((stepLogits net s).map argmaxIdx)
    (s.feedables.finished.map (fun f => if f then 0 else 1))

/-- The updated finished flags of the greedy branch:
`tf.logical_or(feedables.finished, tf.equal(next_symbols,
END_TOKEN_INDEX))`. -/
def stepFinished (net : DecoderNet) (s : LoopState) : List Bool :=
  List.zipWith (fun f j => f || j) s.feedables.finished
    ((nextSymbols net s).map (fun n => decide (n = net.endTokenIdx)))

/-- One iteration of the decoding loop in greedy (`sample=False`)
mode: run the network over the extended prefix, pick arg-max symbols,
force padding for finished sequences, update the finished flags, and
append one slice to every history. -/
def greedyStep (net : DecoderNet) (s : LoopState) : LoopState :=
  let decoded_symbols := stepDecodedSymbols s
  let input_mask := stepInputMask s
  let output_state := net.outputStateOf decoded_symbols input_mask
  let logits := output_state.map net.decodingProj
  let next_symbols := nextSymbols net s
  let has_finished := stepFinished net s
  let not_finished := has_finished.map (fun b => !b)
  { histories :=
      { logits := s.histories.logits ++ [logits]
        decoder_outputs := s.histories.decoder_outputs ++ [output_state]
        mask := s.histories.mask ++ [not_finished]
        outputs := s.histories.outputs ++ [next_symbols]
        decoded_symbols := decoded_symbols
        input_mask := input_mask }
    feedables :=
      { step := s.feedables.step + 1
        finished := has_finished
        input_symbol := next_symbols
        prev_logits := logits } }

/-- The body returned by `TransformerDecoder.get_body`.  In the
`sample=True` branch the source draws `next_symbols` from
`tf.multinomial(logits, num_samples=1)` but assigns `has_finished` and
`not_finished` only in the greedy `else` branch, so building the new
`DecoderFeedables` looks up the unbound name `has_finished` and Python
raises a `NameError`; with `sample=False` the step completes as
`greedyStep`. -/
def body (net : DecoderNet) (sample : Bool) (s : LoopState) :
    Except PyErr LoopState :=
  if sample then .error (.nameError ("has_finished"))
  else .ok (greedyStep net s)

/-- Modelled from the spec: `AutoregressiveDecoder.get_initial_loop_state`
(module `neuralmonkey/decoders/autoregressive.py`, absent from this
repository slice) — "Initial state: step=0, finished=all-false,
input_symbol=start-of-sequence token, empty histories".  The
transformer-specific histories `decoded_symbols` and `input_mask` are
initialized empty (`tf.zeros(shape=[0, batch_size])`) by
`TransformerDecoder.get_initial_loop_state` in the source. -/
def get_initial_loop_state (batchSize startSymbol : ℕ) : LoopState :=
  { histories :=
      { logits := []
        decoder_outputs := []
        mask := []
        outputs := []
        decoded_symbols := []
        input_mask := [] }
    feedables :=
      { step := 0
        finished := List.replicate batchSize false
        input_symbol := List.replicate batchSize startSymbol
        prev_logits := List.replicate batchSize [] } }

/-- Do all six history sequences of a loop state have length equal to
its step counter? -/
def historiesLengthsEqStep (s : LoopState) : Prop :=
  s.histories.logits.length = s.feedables.step ∧
  s.histories.decoder_outputs.length = s.feedables.step ∧
  s.histories.mask.length = s.feedables.step ∧
  s.histories.outputs.length = s.feedables.step ∧
  s.histories.decoded_symbols.length = s.feedables.step ∧
  s.histories.input_mask.length = s.feedables.step

end TransformerDecoder

/-! ## The training driver's trainer construction

`train_translation.py` builds the trainer: with `--mixer` set it calls
`Mixer(decoder, xent_calls, moving_calls)` — three positional
arguments against `Mixer.__init__(self, decoder)`, which accepts one
argument besides `self` — so Python raises a `TypeError` before the
session, variable initialization or training loop are ever reached. -/

/-- The trainer object the driver builds. -/
inductive Trainer : Type where
  | mixerTrainer : Trainer
  | crossEntropyTrainer (l2 : ℚ) : Trainer
  deriving Repr, DecidableEq

/-- One executed training step of the driver's training loop. -/
inductive TrainEvent : Type where
  | trainingStep (batchIdx : ℕ) (t : Trainer) : TrainEvent
  deriving Repr, DecidableEq

namespace TrainTranslation

/-- Python's positional-arity check on a call: a call supplying
`supplied` positional arguments to a callable whose `__init__` accepts
`expected` of them (besides `self`) raises a `TypeError` unless they
match. -/
def callPy (expected supplied : ℕ) : Except PyErr Unit :=
  if supplied = expected then .ok ()
  else
    .error (.typeError ("takes " ++ toString expected ++
      (" positional arguments but ") ++ toString supplied ++
      (" were given")))

/-- Model of `Mixer.__init__(self, decoder)` accepts one positional argument
besides `self`. -/
def mixerInitParams : ℕ := 1

/-- The driver's trainer construction: with `--mixer xent,moving` it
unpacks the two values and calls `Mixer(decoder, xent_calls,
moving_calls)` — three positional arguments; otherwise it builds the
cross-entropy trainer. -/
def buildTrainer (mixerOpt : Option (ℤ × ℤ)) (l2 : ℚ) :
    Except PyErr Trainer :=
  match mixerOpt with
  | some (_xent_calls, _moving_calls) => do
    let _ ← callPy mixerInitParams 3
    .ok Trainer.mixerTrainer
  | none => .ok (Trainer.crossEntropyTrainer l2)

/-- The driver's `__main__` tail: build the trainer, then run the
training loop over the batches.  An error during trainer construction
propagates before any training step happens. -/
def driverMain (mixerOpt : Option (ℤ × ℤ)) (l2 : ℚ) (numBatches : ℕ) :
    Except PyErr (List TrainEvent) := do
  let trainer ← buildTrainer mixerOpt l2
  .ok ((List.range numBatches).map (fun b => .trainingStep b trainer))

end TrainTranslation

/-! ## Theorems -/

/-- Claim C8. The transformer layer stack is defined by recursion on the
level: level 0 equals the raw embedded input; level `L ≥ 1` is built
from level `L−1` only, via the three residual sublayers (causal
self-attention, encoder attention, feed-forward, each preceded by layer
normalization as `sublayer_block` composes them); and exactly when the
level equals the configured depth one additional layer normalization is
applied to the output before returning. -/
theorem layer_recursion_structure {T M : Type} (ops : SublayerOps T M)
    (depth : ℕ) (inputs : T) (mask : M) :
    (TransformerDecoder.layer ops depth 0 inputs mask =
      ⟨inputs, mask⟩) ∧
    (∀ level : ℕ,
      TransformerDecoder.layer ops depth (level + 1) inputs mask =
        ⟨(if depth = level + 1 then
            ops.layer_norm (TransformerDecoder.sublayer_block ops
              (TransformerDecoder.layer ops depth level inputs mask))
          else
            TransformerDecoder.sublayer_block ops
              (TransformerDecoder.layer ops depth level inputs mask)),
          mask⟩) := by
  refine ⟨rfl, fun level => ?_⟩
  simp only [TransformerDecoder.layer]

/-- Claim C4. The claim says the step function supports `sample=True`
with the finished flags and padding-forcing updated as in greedy mode.
In the source, `has_finished` and `not_finished` are assigned only in
the greedy `else` branch, so a body built with `sample=True` fails with
`NameError` on `has_finished` when it constructs the new feedables;
only `sample=False` completes a step. -/
theorem body_sample_raises_name_error :
    (∀ (net : DecoderNet) (s : LoopState),
      TransformerDecoder.body net true s =
        .error (.nameError ("has_finished"))) ∧
    (∀ (net : DecoderNet) (s : LoopState),
      TransformerDecoder.body net false s =
        .ok (TransformerDecoder.greedyStep net s)) :=
  ⟨fun _ _ => rfl, fun _ _ => rfl⟩

/-- Claim C10. Every invocation of the training driver with the
`--mixer` option set fails with a `TypeError` while constructing the
trainer — `Mixer(decoder, xent_calls, moving_calls)` supplies three
positional arguments to a constructor accepting one — so no training
step ever runs. -/
theorem mixer_option_fails_before_training (xc mc : ℤ) (l2 : ℚ)
    (numBatches : ℕ) :
    TrainTranslation.buildTrainer (some (xc, mc)) l2 =
      .error (.typeError
        (("takes 1 positional arguments but 3 were given"))) ∧
    TrainTranslation.driverMain (some (xc, mc)) l2 numBatches =
      .error (.typeError
        (("takes 1 positional arguments but 3 were given"))) := by
  constructor <;> rfl

/-- Claim C7 counterexample. The claim says the per-step mixing weights
are externally supplied per training call (defaulting to 1.0), so the
applied update reflects the caller-provided weights.  In the source,
`Mixer.run` executes `for w in self.mixer_weights: fd[w] = 1`, which
overwrites a caller-provided weight of 3/10 with 1: the fed weight is
1, not the caller's 3/10. -/
theorem run_overwrites_caller_weights :
    Mixer.runFeedWeights 1 (fun _ => some ((3 : ℚ) / 10)) 0 = some 1 ∧
    Mixer.claimedFeedWeights 1 (fun _ => some ((3 : ℚ) / 10)) 0 =
      some ((3 : ℚ) / 10) ∧
    some (1 : ℚ) ≠ some ((3 : ℚ) / 10) := by
  refine ⟨rfl, rfl, by norm_num⟩

/-- Claim C7 amended. `Mixer.run` ignores any caller-supplied per-step
mixing weights: it unconditionally feeds the value 1 for every step's
mixing weight, so every training-step invocation applies the pure
cross-entropy mix. -/
theorem run_feeds_weight_one (numSteps : ℕ) (fd : ℕ → Option ℚ)
    (w : ℕ) (hw : w < numSteps) :
    Mixer.runFeedWeights numSteps fd w = some 1 := by
  simp [Mixer.runFeedWeights, hw]

/-- Witness for `run_feeds_weight_one` at a concrete feed. -/
theorem run_feeds_weight_one_witness :
    Mixer.runFeedWeights 2 (fun _ => some ((3 : ℚ) / 10)) 1 = some 1 :=
  run_feeds_weight_one 2 (fun _ => some ((3 : ℚ) / 10)) 1 (by decide)

/-- Claim C3. The claim says the regressor's training update touches only
the regressor's own weight and bias.  In the source,
`GradientDescentOptimizer(1e-3).minimize(regression_loss)` is called
with no `var_list`, so it differentiates with respect to every
trainable variable — and `regression_loss` depends on the decoder's
parameters through `decoder.hidden_states`.  At the concrete instance
with one decoder parameter (variable 0, hidden state = that parameter),
regressor weight 1 and bias 2, BLEU 0 and assignment
`θ = 1, W = 1, b = 0`, the update changes the decoder parameter from 1
to 999/1000.  Moreover `Mixer.run` never fetches the regressor's
training op at all. -/
theorem regression_update_touches_decoder_param :
    Mixer.regression_optimizer_update [TF.Expr.varE 0] 1 2 0 [0, 1, 2]
      (fun j => if j = 0 then (1 : ℚ) else if j = 1 then 1 else 0) 0 =
      999 / 1000 ∧
    (fun j => if j = 0 then (1 : ℚ) else if j = 1 then 1 else 0) 0 = 1 ∧
    (999 : ℚ) / 1000 ≠ 1 ∧
    (∀ (verbose : Bool) (numDecoded : ℕ),
      Mixer.Fetch.regression_optimizer ∉
        Mixer.runFetches verbose numDecoded) := by
  refine ⟨?_, rfl, by norm_num, ?_⟩
  · simp [Mixer.regression_optimizer_update, TF.gradient_descent_minimize,
      Mixer.regression_loss, Mixer.expected_rewards, TF.sumE, TF.gradE,
      TF.evalE]
    norm_num
  · intro verbose numDecoded
    cases verbose <;> simp [Mixer.runFetches, List.mem_append, List.mem_map]

/-- Claim C5. The policy-gradient estimator: (a) the per-step derivative
term the source builds equals the spec's formula
`g_t = sum_over_batch[(actual_reward − expected_reward_t) *
(softmax(logits_t) − indicator_t)]`; (b) `tf.stop_gradient` severs the
gradient path, so differentiating `logits * stop_gradient(d)` yields
`d` times the logits' gradient — the bracket acts as a fixed per-class
weight; (c) only variables outside the mixer's variable scope (names
not starting with `mixer`) are in the list the reinforce gradients are
computed for. -/
theorem reinforce_estimator_matches_spec :
    (∀ (softmaxF : List ℚ → List ℚ) (vocab : ℕ) (bleu r : List ℚ)
      (logits : List (List ℚ)),
      Mixer.derivatives_step softmaxF vocab bleu r logits =
        Mixer.g_spec softmaxF vocab bleu r logits) ∧
    (∀ (ρ : ℕ → ℚ) (j : ℕ) (l d : TF.Expr),
      TF.evalE ρ (TF.gradE j (.mulE l (.stop_gradient d))) =
        TF.evalE ρ d * TF.evalE ρ (TF.gradE j l)) ∧
    (∀ (allVars : List TFVar) (v : TFVar),
      v ∈ Mixer.trainable_vars allVars ↔
        v ∈ allVars ∧ v.name.startsWith ("mixer") = false) := by
  refine ⟨?_, ?_, ?_⟩
  · intro softmaxF vocab bleu r logits
    simp only [Mixer.derivatives_step, Mixer.g_spec,
      Mixer.broadcast_col_mul, Mixer.reduce_sum_axis0,
      List.zipWith_map_right, List.map_zipWith]
  · intro ρ j l d
    simp [TF.gradE, TF.evalE]
    ring
  · intro allVars v
    simp [Mixer.trainable_vars, List.mem_filter]

/-- Claim C6 amended. In the per-parameter merge of `Mixer.__init__`:
a parameter with no cross-entropy gradient at the very first step is
recorded once as "no contribution"; a structurally absent gradient at a
later step skips that step's contribution without raising; and a
gradient value of any type other than a dense tensor or indexed slices
raises an unrecoverable error — but, the `raise` statement formatting
its message from the undefined name `xg`, the error actually raised is
a `NameError` whose message does not name the offending type
(illustrated at type name `FancyGradient`). -/
theorem mixer_merge_edge_cases :
    (∀ (rgv : GradVal) (w : ℚ) (rest : List (GradVal × GradVal))
      (j : ℕ) (acc : List (Option ℚ)),
      Mixer.mixInner 0 w ((rgv, GradVal.noneG) :: rest) j acc =
        Mixer.mixInner 0 w rest (j + 1) (acc ++ [none])) ∧
    (∀ (rgv : GradVal) (w : ℚ) (i : ℕ)
      (rest : List (GradVal × GradVal)) (j : ℕ)
      (acc : List (Option ℚ)),
      Mixer.mixInner (i + 1) w ((rgv, GradVal.noneG) :: rest) j acc =
        Mixer.mixInner (i + 1) w rest (j + 1) acc) ∧
    (∀ (rgv : GradVal) (ty : String) (w : ℚ) (i : ℕ)
      (rest : List (GradVal × GradVal)) (j : ℕ)
      (acc : List (Option ℚ)),
      Mixer.mixInner i w ((rgv, GradVal.other ty) :: rest) j acc =
        .error (.nameError ("xg"))) ∧
    containsSub (PyErr.message (.nameError ("xg"))) ("FancyGradient") =
      false := by
  refine ⟨?_, ?_, ?_, by decide⟩
  · intro rgv w rest j acc
    simp [Mixer.mixInner]
  · intro rgv w i rest j acc
    simp [Mixer.mixInner]
  · intro rgv ty w i rest j acc
    simp [Mixer.mixInner]

/-- Claim C6 counterexample. The claim as stated says an unexpected
gradient type raises an error *whose message names the offending
type*.  At the concrete input where the cross-entropy gradient of the
only variable is a value of type `FancyGradient`, the construction
raises `NameError: name xg is not defined` (the `raise` line's format
call references the undefined name `xg`), and that message does not
contain the offending type's name. -/
theorem mixer_unknown_type_error_names_no_type :
    Mixer.mixedGradients [[GradVal.tensor 1]]
      [[GradVal.other ("FancyGradient")]] [1] =
      .error (.nameError ("xg")) ∧
    containsSub
      (PyErr.message (PyErr.nameError ("xg"))) ("FancyGradient") =
      false := by
  refine ⟨rfl, by decide⟩

/-- Step 0 of the accumulation appends one slot per variable. -/
theorem accumVals_zero_length (ovs : List (Option ℚ)) :
    ∀ (j : ℕ) (acc : List (Option ℚ)),
    (Mixer.accumVals 0 ovs j acc).length = acc.length + ovs.length := by
  induction ovs with
  | nil => intro j acc; simp [Mixer.accumVals]
  | cons ov rest ih =>
    intro j acc
    cases ov <;> simp [Mixer.accumVals, ih] <;> omega

/-- A later step of the accumulation leaves the accumulator's length
unchanged. -/
theorem accumVals_succ_length (i : ℕ) (ovs : List (Option ℚ)) :
    ∀ (j : ℕ) (acc : List (Option ℚ)),
    (Mixer.accumVals (i + 1) ovs j acc).length = acc.length := by
  induction ovs with
  | nil => intro j acc; simp [Mixer.accumVals]
  | cons ov rest ih =>
    intro j acc
    cases ov with
    | none => simp [Mixer.accumVals, ih]
    | some v =>
      cases ho : acc[j]? with
      | none => simp [Mixer.accumVals, ho]
      | some o => cases o <;> simp [Mixer.accumVals, ho, ih]

/-- On aligned gradient pairs the merge's inner loop never raises, and
computes exactly the per-variable accumulation of the mixed
contributions `w * xent + (1 - w) * reinforce`. -/
theorem mixInner_ok (w : ℚ) (i : ℕ)
    (pairs : List (GradVal × GradVal)) :
    ∀ (j : ℕ) (acc : List (Option ℚ)),
    (∀ p ∈ pairs, Mixer.alignedPair p) →
    (i ≠ 0 → j + pairs.length ≤ acc.length) →
    Mixer.mixInner i w pairs j acc =
      .ok (Mixer.accumVals i (pairs.map (Mixer.mixVal w)) j acc) := by
  induction pairs with
  | nil => intro j acc _ _; simp [Mixer.mixInner, Mixer.accumVals]
  | cons p rest ih =>
    obtain ⟨rg, xg⟩ := p
    intro j acc hgood hlen
    obtain ⟨hnum, hro, hxo⟩ := hgood _ (List.mem_cons_self _ _)
    have hgood' : ∀ q ∈ rest, Mixer.alignedPair q :=
      fun q hq => hgood q (List.mem_cons_of_mem _ hq)
    cases xg with
    | other ty => simp [Mixer.isOther] at hxo
    | noneG =>
      cases i with
      | zero =>
        simp only [Mixer.mixInner, Mixer.accumVals, List.map_cons,
          Mixer.mixVal, Mixer.isNum, if_pos, and_self, reduceIte]
        exact ih (j + 1) (acc ++ [none]) hgood' (by simp)
      | succ ip =>
        simp only [Mixer.mixInner, Mixer.accumVals, List.map_cons,
          Mixer.mixVal, Mixer.isNum, Nat.succ_ne_zero, and_false,
          reduceIte, Bool.false_eq_true]
        exact ih (j + 1) acc hgood'
          (fun _ => by have := hlen (Nat.succ_ne_zero ip); simp at this ⊢; omega)
    | tensor xv =>
      have hrg : Mixer.isNum rg = true := by
        simpa [Mixer.isNum] using hnum
      cases rg with
      | noneG => simp [Mixer.isNum] at hrg
      | other ty2 => simp [Mixer.isOther] at hro
      | tensor rv =>
        cases i with
        | zero =>
          simp only [Mixer.mixInner, Mixer.accumVals, List.map_cons,
            Mixer.mixVal, Mixer.isNum, Mixer.numVal, Mixer.toScalar,
            reduceCtorEq, false_and, reduceIte, Except.bind]
          exact ih (j + 1) (acc ++ [some (w * xv + (1 - w) * rv)])
            hgood' (by simp)
        | succ ip =>
          have hj : j < acc.length := by
            have := hlen (Nat.succ_ne_zero ip); simp at this; omega
          have hrest : (ip + 1 ≠ 0 → j + 1 + rest.length ≤ acc.length) :=
            fun _ => by have := hlen (Nat.succ_ne_zero ip); simp at this; omega
          cases ho : acc.get? j with
          | none =>
            have := List.get?_eq_none.mp ho
            omega
          | some o =>
            cases o with
            | none =>
              simp only [Mixer.mixInner, Mixer.accumVals, List.map_cons,
                Mixer.mixVal, Mixer.isNum, Mixer.numVal, Mixer.toScalar,
                reduceCtorEq, false_and, Nat.succ_ne_zero, and_false,
                reduceIte, Except.bind, ho]
              exact ih (j + 1) (acc.set j (some (w * xv + (1 - w) * rv)))
                hgood' (by simpa using hrest)
            | some m =>
              simp only [Mixer.mixInner, Mixer.accumVals, List.map_cons,
                Mixer.mixVal, Mixer.isNum, Mixer.numVal, Mixer.toScalar,
                reduceCtorEq, false_and, Nat.succ_ne_zero, and_false,
                reduceIte, Except.bind, ho]
              exact ih (j + 1)
                (acc.set j (some (m + (w * xv + (1 - w) * rv))))
                hgood' (by simpa using hrest)
      | indexedSlices rv =>
        cases i with
        | zero =>
          simp only [Mixer.mixInner, Mixer.accumVals, List.map_cons,
            Mixer.mixVal, Mixer.isNum, Mixer.numVal, Mixer.toScalar,
            reduceCtorEq, false_and, reduceIte, Except.bind]
          exact ih (j + 1) (acc ++ [some (w * xv + (1 - w) * rv)])
            hgood' (by simp)
        | succ ip =>
          have hj : j < acc.length := by
            have := hlen (Nat.succ_ne_zero ip); simp at this; omega
          have hrest : (ip + 1 ≠ 0 → j + 1 + rest.length ≤ acc.length) :=
            fun _ => by have := hlen (Nat.succ_ne_zero ip); simp at this; omega
          cases ho : acc.get? j with
          | none =>
            have := List.get?_eq_none.mp ho
            omega
          | some o =>
            cases o with
            | none =>
              simp only [Mixer.mixInner, Mixer.accumVals, List.map_cons,
                Mixer.mixVal, Mixer.isNum, Mixer.numVal, Mixer.toScalar,
                reduceCtorEq, false_and, Nat.succ_ne_zero, and_false,
                reduceIte, Except.bind, ho]
              exact ih (j + 1) (acc.set j (some (w * xv + (1 - w) * rv)))
                hgood' (by simpa using hrest)
            | some m =>
              simp only [Mixer.mixInner, Mixer.accumVals, List.map_cons,
                Mixer.mixVal, Mixer.isNum, Mixer.numVal, Mixer.toScalar,
                reduceCtorEq, false_and, Nat.succ_ne_zero, and_false,
                reduceIte, Except.bind, ho]
              exact ih (j + 1)
                (acc.set j (some (m + (w * xv + (1 - w) * rv))))
                hgood' (by simpa using hrest)
    | indexedSlices xv =>
      have hrg : Mixer.isNum rg = true := by
        simpa [Mixer.isNum] using hnum
      cases rg with
      | noneG => simp [Mixer.isNum] at hrg
      | other ty2 => simp [Mixer.isOther] at hro
      | tensor rv =>
        cases i with
        | zero =>
          simp only [Mixer.mixInner, Mixer.accumVals, List.map_cons,
            Mixer.mixVal, Mixer.isNum, Mixer.numVal, Mixer.toScalar,
            reduceCtorEq, false_and, reduceIte, Except.bind]
          exact ih (j + 1) (acc ++ [some (w * xv + (1 - w) * rv)])
            hgood' (by simp)
        | succ ip =>
          have hj : j < acc.length := by
            have := hlen (Nat.succ_ne_zero ip); simp at this; omega
          have hrest : (ip + 1 ≠ 0 → j + 1 + rest.length ≤ acc.length) :=
            fun _ => by have := hlen (Nat.succ_ne_zero ip); simp at this; omega
          cases ho : acc.get? j with
          | none =>
            have := List.get?_eq_none.mp ho
            omega
          | some o =>
            cases o with
            | none =>
              simp only [Mixer.mixInner, Mixer.accumVals, List.map_cons,
                Mixer.mixVal, Mixer.isNum, Mixer.numVal, Mixer.toScalar,
                reduceCtorEq, false_and, Nat.succ_ne_zero, and_false,
                reduceIte, Except.bind, ho]
              exact ih (j + 1) (acc.set j (some (w * xv + (1 - w) * rv)))
                hgood' (by simpa using hrest)
            | some m =>
              simp only [Mixer.mixInner, Mixer.accumVals, List.map_cons,
                Mixer.mixVal, Mixer.isNum, Mixer.numVal, Mixer.toScalar,
                reduceCtorEq, false_and, Nat.succ_ne_zero, and_false,
                reduceIte, Except.bind, ho]
              exact ih (j + 1)
                (acc.set j (some (m + (w * xv + (1 - w) * rv))))
                hgood' (by simpa using hrest)
      | indexedSlices rv =>
        cases i with
        | zero =>
          simp only [Mixer.mixInner, Mixer.accumVals, List.map_cons,
            Mixer.mixVal, Mixer.isNum, Mixer.numVal, Mixer.toScalar,
            reduceCtorEq, false_and, reduceIte, Except.bind]
          exact ih (j + 1) (acc ++ [some (w * xv + (1 - w) * rv)])
            hgood' (by simp)
        | succ ip =>
          have hj : j < acc.length := by
            have := hlen (Nat.succ_ne_zero ip); simp at this; omega
          have hrest : (ip + 1 ≠ 0 → j + 1 + rest.length ≤ acc.length) :=
            fun _ => by have := hlen (Nat.succ_ne_zero ip); simp at this; omega
          cases ho : acc.get? j with
          | none =>
            have := List.get?_eq_none.mp ho
            omega
          | some o =>
            cases o with
            | none =>
              simp only [Mixer.mixInner, Mixer.accumVals, List.map_cons,
                Mixer.mixVal, Mixer.isNum, Mixer.numVal, Mixer.toScalar,
                reduceCtorEq, false_and, Nat.succ_ne_zero, and_false,
                reduceIte, Except.bind, ho]
              exact ih (j + 1) (acc.set j (some (w * xv + (1 - w) * rv)))
                hgood' (by simpa using hrest)
            | some m =>
              simp only [Mixer.mixInner, Mixer.accumVals, List.map_cons,
                Mixer.mixVal, Mixer.isNum, Mixer.numVal, Mixer.toScalar,
                reduceCtorEq, false_and, Nat.succ_ne_zero, and_false,
                reduceIte, Except.bind, ho]
              exact ih (j + 1)
                (acc.set j (some (m + (w * xv + (1 - w) * rv))))
                hgood' (by simpa using hrest)

/-- On aligned gradient streams, the whole merge loop with a constant
per-step weight `c` computes the accumulation of the per-step mixed
contributions and never raises. -/
theorem mixLoop_const_ok (c : ℚ) (n : ℕ)
    (rgss xgss : List (List GradVal)) (i : ℕ) (acc : List (Option ℚ))
    (h : List.Forall₂ (Mixer.alignedStep n) rgss xgss)
    (hlen : i ≠ 0 → n ≤ acc.length) :
    Mixer.mixLoop i (Mixer.zip3 rgss xgss (List.replicate rgss.length c))
        acc =
      .ok (Mixer.accumValsLoop i
        (List.zipWith (fun rgs xgs => (rgs.zip xgs).map (Mixer.mixVal c))
          rgss xgss) acc) := by
  induction h generalizing i acc with
  | nil => simp [Mixer.mixLoop, Mixer.zip3, Mixer.accumValsLoop]
  | @cons rgs xgs l1 l2 h1 h2 ih =>
    obtain ⟨hr, hx, hpairs⟩ := h1
    have hziplen : (rgs.zip xgs).length = n := by
      simp [List.length_zip, hr, hx]
    rw [List.length_cons, List.replicate_succ]
    show Mixer.mixLoop i ((rgs, xgs, c) :: Mixer.zip3 l1 l2
      (List.replicate l1.length c)) acc = _
    rw [Mixer.mixLoop]
    rw [mixInner_ok c i (rgs.zip xgs) 0 acc hpairs
      (fun hi => by rw [hziplen]; simpa using hlen hi)]
    show Mixer.mixLoop (i + 1) _ (Mixer.accumVals i _ 0 acc) = _
    rw [List.zipWith_cons_cons, Mixer.accumValsLoop]
    apply ih
    intro _
    cases i with
    | zero =>
      rw [accumVals_zero_length]
      simp [hziplen]
    | succ ip =>
      rw [accumVals_succ_length]
      exact hlen (Nat.succ_ne_zero ip)

/-- With weight 1 the per-step mixed contribution is the cross-entropy
contribution alone. -/
theorem mixVal_one (p : GradVal × GradVal) :
    Mixer.mixVal 1 p = Mixer.toOptVal p.2 := by
  obtain ⟨rg, xg⟩ := p
  simp only [Mixer.mixVal, Mixer.toOptVal]
  cases hn : Mixer.isNum xg <;> simp [hn]

/-- With weight 0 the per-step mixed contribution of an aligned pair is
the reinforce contribution alone. -/
theorem mixVal_zero (p : GradVal × GradVal) (hp : Mixer.alignedPair p) :
    Mixer.mixVal 0 p = Mixer.toOptVal p.1 := by
  obtain ⟨rg, xg⟩ := p
  obtain ⟨hnum, _, _⟩ := hp
  simp only [Mixer.mixVal, Mixer.toOptVal]
  simp only at hnum
  rw [hnum]
  cases hn : Mixer.isNum xg <;> simp [hn]

/-- At weight 1, the zipped mixed-contribution streams are the
cross-entropy streams. -/
theorem streams_weight_one (n : ℕ) (rgss xgss : List (List GradVal))
    (h : List.Forall₂ (Mixer.alignedStep n) rgss xgss) :
    List.zipWith (fun rgs xgs => (rgs.zip xgs).map (Mixer.mixVal 1))
        rgss xgss =
      xgss.map (fun gs => gs.map Mixer.toOptVal) := by
  induction h with
  | nil => simp
  | @cons rgs xgs l1 l2 h1 h2 ih =>
    obtain ⟨hr, hx, _⟩ := h1
    rw [List.zipWith_cons_cons, List.map_cons, ih]
    congr 1
    have h1 : (rgs.zip xgs).map (Mixer.mixVal 1) =
        ((rgs.zip xgs).map Prod.snd).map Mixer.toOptVal := by
      rw [List.map_map]
      exact List.map_congr_left (fun p _ => mixVal_one p)
    rw [h1, List.map_snd_zip rgs xgs (by omega)]

/-- At weight 0, the zipped mixed-contribution streams are the
reinforce streams. -/
theorem streams_weight_zero (n : ℕ) (rgss xgss : List (List GradVal))
    (h : List.Forall₂ (Mixer.alignedStep n) rgss xgss) :
    List.zipWith (fun rgs xgs => (rgs.zip xgs).map (Mixer.mixVal 0))
        rgss xgss =
      rgss.map (fun gs => gs.map Mixer.toOptVal) := by
  induction h with
  | nil => simp
  | @cons rgs xgs l1 l2 h1 h2 ih =>
    obtain ⟨hr, hx, hpairs⟩ := h1
    rw [List.zipWith_cons_cons, List.map_cons, ih]
    congr 1
    have h1 : (rgs.zip xgs).map (Mixer.mixVal 0) =
        ((rgs.zip xgs).map Prod.fst).map Mixer.toOptVal := by
      rw [List.map_map]
      exact List.map_congr_left (fun p hp => mixVal_zero p (hpairs p hp))
    rw [h1, List.map_fst_zip rgs xgs (by omega)]

/-- Claim C1. For every trainable parameter: when the per-step mixing
weight is 1 at every step, the mixed gradient the mixer accumulates is
exactly the cross-entropy-only accumulated gradient (no reinforce
contribution); when it is 0 at every step, it is exactly the
reinforce-only accumulated gradient.  The hypothesis states that the
two gradient streams are aligned as TensorFlow produces them (each
step lists one gradient per trainable variable, a variable's
cross-entropy gradient is a numeric tensor exactly when its reinforce
gradient is, and no gradient is of an unexpected type). -/
theorem mixedGradients_extreme_weights (n : ℕ)
    (rgss xgss : List (List GradVal))
    (h : List.Forall₂ (Mixer.alignedStep n) rgss xgss) :
    Mixer.mixedGradients rgss xgss (List.replicate rgss.length 1) =
      .ok (Mixer.accumGradients xgss) ∧
    Mixer.mixedGradients rgss xgss (List.replicate rgss.length 0) =
      .ok (Mixer.accumGradients rgss) := by
  constructor
  · rw [Mixer.mixedGradients,
      mixLoop_const_ok 1 n rgss xgss 0 [] h (by simp),
      streams_weight_one n rgss xgss h, Mixer.accumGradients]
  · rw [Mixer.mixedGradients,
      mixLoop_const_ok 0 n rgss xgss 0 [] h (by simp),
      streams_weight_zero n rgss xgss h, Mixer.accumGradients]

/-- Witness for `mixedGradients_extreme_weights`: two steps over two
variables, the second variable absent from both streams.  With all
weights 1 the mix is the cross-entropy sum `1 + 2 = 3`; with all
weights 0 it is the reinforce sum `5 + 7 = 12`. -/
theorem mixedGradients_extreme_weights_witness :
    Mixer.mixedGradients
        [[GradVal.tensor 5, GradVal.noneG],
          [GradVal.tensor 7, GradVal.noneG]]
        [[GradVal.tensor 1, GradVal.noneG],
          [GradVal.indexedSlices 2, GradVal.noneG]]
        (List.replicate 2 1) =
      .ok [some 3, none] ∧
    Mixer.mixedGradients
        [[GradVal.tensor 5, GradVal.noneG],
          [GradVal.tensor 7, GradVal.noneG]]
        [[GradVal.tensor 1, GradVal.noneG],
          [GradVal.indexedSlices 2, GradVal.noneG]]
        (List.replicate 2 0) =
      .ok [some 12, none] := by
  have h := mixedGradients_extreme_weights 2
    [[GradVal.tensor 5, GradVal.noneG],
      [GradVal.tensor 7, GradVal.noneG]]
    [[GradVal.tensor 1, GradVal.noneG],
      [GradVal.indexedSlices 2, GradVal.noneG]]
    (by
      refine List.Forall₂.cons ?_ (List.Forall₂.cons ?_ List.Forall₂.nil) <;>
        exact ⟨rfl, rfl, by
          simp [Mixer.alignedPair, Mixer.isNum, Mixer.isOther]⟩)
  refine ⟨h.1.trans (congrArg Except.ok ?_),
    h.2.trans (congrArg Except.ok ?_)⟩ <;>
    · simp [Mixer.accumGradients, Mixer.accumValsLoop, Mixer.accumVals,
        Mixer.toOptVal, Mixer.isNum, Mixer.numVal]
      norm_num

/-- One greedy step from a state whose sequence `i` is already
finished: the finished flag stays true (and the flags keep their
batch length), and the symbol emitted for `i` is the padding id. -/
theorem greedyStep_freezes_finished (net : DecoderNet) (B : ℕ)
    (hB : ∀ (ds : List (List ℕ)) (im : List (List ℚ)),
      (net.outputStateOf ds im).length = B)
    (s : LoopState) (hlen : s.feedables.finished.length = B)
    (i : ℕ) (hfin : s.feedables.finished.get? i = some true) :
    (TransformerDecoder.greedyStep net s).feedables.finished.length = B ∧
    (TransformerDecoder.greedyStep net s).feedables.finished.get? i =
      some true ∧
    (TransformerDecoder.nextSymbols net s).get? i =
      some PAD_TOKEN_INDEX := by
  have hi : i < B := by
    obtain ⟨hi, -⟩ := List.get?_eq_some.mp hfin
    omega
  have hlogits : (TransformerDecoder.stepLogits net s).length = B := by
    simp [TransformerDecoder.stepLogits, hB]
  have hargs :
      ((TransformerDecoder.stepLogits net s).map
        TransformerDecoder.argmaxIdx).length = B := by
    simpa using hlogits
  obtain ⟨a, ha⟩ : ∃ a,
      ((TransformerDecoder.stepLogits net s).map
        TransformerDecoder.argmaxIdx).get? i = some a :=
    ⟨_, List.get?_eq_get (by omega)⟩
  have hmask :
      (s.feedables.finished.map (fun f => if f then 0 else 1)).get? i =
        some 0 := by
    rw [List.get?_map, hfin]
    rfl
  have hnext : (TransformerDecoder.nextSymbols net s).get? i =
      some PAD_TOKEN_INDEX := by
    rw [TransformerDecoder.nextSymbols, List.get?_zipWith', ha, hmask]
    simp [PAD_TOKEN_INDEX]
  have hnextlen : (TransformerDecoder.nextSymbols net s).length = B := by
    simp [TransformerDecoder.nextSymbols, List.length_zipWith, hargs,
      hlen, hlogits]
  obtain ⟨b, hb⟩ : ∃ b,
      ((TransformerDecoder.nextSymbols net s).map
        (fun n => decide (n = net.endTokenIdx))).get? i = some b :=
    ⟨_, List.get?_eq_get (by simpa [hnextlen] using hi)⟩
  refine ⟨?_, ?_, hnext⟩
  · show (TransformerDecoder.stepFinished net s).length = B
    simp [TransformerDecoder.stepFinished, List.length_zipWith, hlen,
      hnextlen]
  · show (TransformerDecoder.stepFinished net s).get? i = some true
    rw [TransformerDecoder.stepFinished, List.get?_zipWith', hfin, hb]
    rfl

/-- Claim C2. Once `finished[i]` is true, every further application of
the greedy decoding step keeps it true, and the output slice each later
step appends holds the padding id for sequence `i`: after any `k`
further steps the finished flag of `i` is still true, the symbols the
next step emits give `i` the padding id, and the step's outputs history
is the previous outputs history extended by exactly that symbol
slice. -/
theorem finished_monotone_and_pads (net : DecoderNet) (B i : ℕ)
    (hB : ∀ (ds : List (List ℕ)) (im : List (List ℚ)),
      (net.outputStateOf ds im).length = B)
    (s : LoopState) (hlen : s.feedables.finished.length = B)
    (hfin : s.feedables.finished.get? i = some true) (k : ℕ) :
    ((TransformerDecoder.greedyStep net)^[k] s).feedables.finished.get? i =
      some true ∧
    (TransformerDecoder.nextSymbols net
        ((TransformerDecoder.greedyStep net)^[k] s)).get? i =
      some PAD_TOKEN_INDEX ∧
    ((TransformerDecoder.greedyStep net)^[k + 1] s).histories.outputs =
      ((TransformerDecoder.greedyStep net)^[k] s).histories.outputs ++
        [TransformerDecoder.nextSymbols net
          ((TransformerDecoder.greedyStep net)^[k] s)] := by
  induction k generalizing s with
  | zero =>
    have h := greedyStep_freezes_finished net B hB s hlen i hfin
    exact ⟨hfin, h.2.2, rfl⟩
  | succ k ih =>
    have h := greedyStep_freezes_finished net B hB s hlen i hfin
    rw [Function.iterate_succ_apply, Function.iterate_succ_apply,
      Function.iterate_succ_apply]
    exact ih (TransformerDecoder.greedyStep net s) h.1 h.2.1

/-- Witness for `finished_monotone_and_pads`: batch size 1 with
sequence 0 already finished, iterated 2 further steps. -/
theorem finished_monotone_and_pads_witness :
    (((TransformerDecoder.greedyStep
          { outputStateOf := fun _ _ => [[(5 : ℚ)]],
            decodingProj := fun h => h, endTokenIdx := 2 })^[2]
        { histories :=
            { logits := [], decoder_outputs := [], mask := [],
              outputs := [], decoded_symbols := [], input_mask := [] },
          feedables :=
            { step := 0, finished := [true], input_symbol := [0],
              prev_logits := [[]] } }).feedables.finished.get? 0 =
      some true) ∧
    ((TransformerDecoder.nextSymbols
        { outputStateOf := fun _ _ => [[(5 : ℚ)]],
          decodingProj := fun h => h, endTokenIdx := 2 }
        ((TransformerDecoder.greedyStep
            { outputStateOf := fun _ _ => [[(5 : ℚ)]],
              decodingProj := fun h => h, endTokenIdx := 2 })^[2]
          { histories :=
              { logits := [], decoder_outputs := [], mask := [],
                outputs := [], decoded_symbols := [], input_mask := [] },
            feedables :=
              { step := 0, finished := [true], input_symbol := [0],
                prev_logits := [[]] } })).get? 0 =
      some PAD_TOKEN_INDEX) := by
  have h := finished_monotone_and_pads
    { outputStateOf := fun _ _ => [[(5 : ℚ)]],
      decodingProj := fun h => h, endTokenIdx := 2 } 1 0
    (fun _ _ => rfl)
    { histories :=
        { logits := [], decoder_outputs := [], mask := [],
          outputs := [], decoded_symbols := [], input_mask := [] },
      feedables :=
        { step := 0, finished := [true], input_symbol := [0],
          prev_logits := [[]] } }
    rfl rfl 2
  exact ⟨h.1, h.2.1⟩

/-- Claim C9. Every loop state reachable from the initial state by
iterating the greedy decoding step keeps the length of all six history
sequences equal to the step counter, and after `k` steps the counter
is exactly `k`: the initial state has step 0 with empty histories and
each step appends one slice to every history while incrementing the
counter. -/
theorem histories_track_step (net : DecoderNet) (B start k : ℕ) :
    TransformerDecoder.historiesLengthsEqStep
      ((TransformerDecoder.greedyStep net)^[k]
        (TransformerDecoder.get_initial_loop_state B start)) ∧
    ((TransformerDecoder.greedyStep net)^[k]
      (TransformerDecoder.get_initial_loop_state B start)).feedables.step =
      k := by
  induction k with
  | zero =>
    simp [TransformerDecoder.get_initial_loop_state,
      TransformerDecoder.historiesLengthsEqStep]
  | succ k ih =>
    obtain ⟨⟨h1, h2, h3, h4, h5, h6⟩, hstep⟩ := ih
    rw [Function.iterate_succ_apply']
    constructor
    · refine ⟨?_, ?_, ?_, ?_, ?_, ?_⟩ <;>
        simp [TransformerDecoder.greedyStep,
          TransformerDecoder.stepDecodedSymbols,
          TransformerDecoder.stepInputMask, h1, h2, h3, h4, h5, h6, hstep]
    · simp [TransformerDecoder.greedyStep, hstep]
